import Mathlib

/-!
Verification of the AURELIUS repository's data-client and rate-limiting
modules against their natural-language specification.

The embedding models:
 * `src/aurelius/db/redis_client.py` — the `AureliusDataClient` with its
   Redis-primary / local-file-fallback dispatch.  The local file store is
   modelled as an association list from keys to entries `{value, created_at,
   expires_at}`; wall-clock time (`datetime.now()`) is passed explicitly as a
   natural number of seconds since the epoch 0001-01-01 00:00 (proleptic
   Gregorian, matching Python's `date.toordinal` day numbering).  The Redis
   primary is modelled by an explicit per-call outcome (`Except Unit α`):
   `.ok` is a successful primary call, `.error` a raised exception.
 * `src/aurelius/utils/rate_limit.py` — `AureliusRateLimiter` over the
   fallback store.
 * `src/aurelius/utils/security.py` — `SecurityValidator.sanitize_text`.

Python values stored in the client are modelled by the JSON-representable
values `JVal` (the client serialises entries with `json.dumps`).
-/

/-- JSON-representable Python values, as stored by the data client. -/
inductive JVal : Type where
  | null : JVal
  | bool : Bool → JVal
  | int : Int → JVal
  | str : String → JVal
  | arr : List JVal → JVal
  | obj : List (String × JVal) → JVal

/-- Python truthiness of a `JVal` (`bool(v)`). -/
def JVal.truthy : JVal → Bool
  | .null => false
  | .bool b => b
  | .int n => n != 0
  | .str s => s != ""
  | .arr l => !l.isEmpty
  | .obj l => !l.isEmpty

/-- Python `x or y` for a possibly absent value: `await get(key) or 0`
(`None` and falsy values are replaced by the right operand). -/
def pyOrInt0 : Option JVal → JVal
  | none => .int 0
  | some v => if v.truthy then v else .int 0

/-- Python `int(v)`: `some` the integer on success, `none` when `int()`
raises (`TypeError`/`ValueError`). Booleans convert (`int(True) = 1`);
strings are parsed as decimal integers. -/
def pyToInt : JVal → Option Int
  | .int n => some n
  | .bool b => some (if b then 1 else 0)
  | .str s => s.toInt?
  | .null => none
  | .arr _ => none
  | .obj _ => none

/-- One stored entry of the local-file fallback store: the JSON document
`{"value": ..., "created_at": ..., "expires_at": ...}` written by
`_set_local`. Timestamps are seconds. -/
structure LocalEntry : Type where
  value : JVal
  createdAt : Nat
  expiresAt : Option Nat

/-- The local-file fallback store (`fallback_path/*.json`): an association
list from keys (file stems) to entries. -/
def Store : Type := List (String × LocalEntry)

/-- Lookup of the file `key.json`. -/
def storeLookup (st : Store) (k : String) : Option LocalEntry :=
  match st with
  | [] => none
  | (k', e) :: rest => if k' = k then some e else storeLookup rest k

/-- Removal of the file `key.json` (`file_path.unlink()`). -/
def storeErase (st : Store) (k : String) : Store :=
  match st with
  | [] => []
  | (k', e) :: rest => if k' = k then storeErase rest k else (k', e) :: storeErase rest k

/-- Overwriting the file `key.json`. -/
def storeSet (st : Store) (k : String) (e : LocalEntry) : Store :=
  (k, e) :: storeErase st k

theorem storeLookup_erase (st : Store) (k k' : String) :
    storeLookup (storeErase st k) k' = if k = k' then none else storeLookup st k' := by
  induction st with
  | nil => simp [storeErase, storeLookup]
  | cons kv rest ih =>
    obtain ⟨k₀, e₀⟩ := kv
    by_cases h₀ : k₀ = k
    · subst h₀
      by_cases h₁ : k₀ = k'
      · subst h₁; simp [storeErase, storeLookup, ih]
      · simp [storeErase, storeLookup, h₁, ih]
    · by_cases h₁ : k₀ = k'
      · subst h₁
        have hkk : ¬ k = k₀ := fun h => h₀ h.symm
        simp [storeErase, storeLookup, h₀, hkk]
      · simp [storeErase, storeLookup, h₀, h₁, ih]

theorem storeLookup_set (st : Store) (k k' : String) (e : LocalEntry) :
    storeLookup (storeSet st k e) k' = if k = k' then some e else storeLookup st k' := by
  unfold storeSet
  by_cases h : k = k'
  · subst h; simp [storeLookup]
  · simp [storeLookup, h, storeLookup_erase]

/--
`AureliusDataClient._set_local`: writes the JSON document
`{"value": v, "created_at": now, "expires_at": now + expire if expire else None}`
to `key.json` and returns `True`.  Note the Python truthiness test
`... if expire else None`: an expiry of `0` seconds stores `None`.
-/
def setLocal (now : Nat) (k : String) (v : JVal) (expire : Option Nat) (st : Store) :
    Bool × Store :=
  let expiresAt : Option Nat :=
    match expire with
    | some e => if e ≠ 0 then some (now + e) else none
    | none => none
  (true, storeSet st k ⟨v, now, expiresAt⟩)

/--
`AureliusDataClient._get_local`: reads `key.json`; if the entry carries an
`expires_at` in the past (`datetime.now() > expires_at`), deletes the file and
returns `None`; otherwise returns the stored `"value"`.
-/
def getLocal (now : Nat) (k : String) (st : Store) : Option JVal × Store :=
  match storeLookup st k with
  | none => (none, st)
  | some e =>
    match e.expiresAt with
    | none => (some e.value, st)
    | some exp =>
      if now > exp then (none, storeErase st k) else (some e.value, st)

/-- `AureliusDataClient._delete_local`: unlinks `key.json`, returns `True`. -/
def deleteLocal (k : String) (st : Store) : Bool × Store :=
  (true, storeErase st k)

/-- `AureliusDataClient._exists_local`: `key.json` exists on disk (no expiry
check). -/
def existsLocal (k : String) (st : Store) : Bool :=
  (storeLookup st k).isSome

/-- `AureliusDataClient._keys_local`: all file stems matching the pattern
(`pattern == "*"` or prefix match after removing `*`). -/
def keysLocal (pattern : String) (st : Store) : List String :=
  (st.map Prod.fst).filter fun k =>
    pattern == "*" || k.startsWith (pattern.replace "*" "")

/--
`AureliusDataClient._increment_local`: reads the current value
(`await self._get_local(key) or 0`), computes `int(current) + amount` and
stores it back via `_set_local(key, new_value)` — with **no** `expire`
argument, so the rewritten entry has `expires_at = None`.  When `int()` raises
the exception is caught and `0` is returned (after the read's possible
expiry-deletion side effect).
-/
def incrementLocal (now : Nat) (k : String) (amount : Int) (st : Store) : Int × Store :=
  let res := getLocal now k st
  match pyToInt (pyOrInt0 res.1) with
  | none => (0, res.2)
  | some c => (c + amount, (setLocal now k (.int (c + amount)) none res.2).2)

/-- `AureliusDataClient._set_hash_local`: reads the stored hash
(`await self._get_local(key) or {}`), sets the field and writes it back.  If
the stored value is not a mapping, `hash_data[field] = value` raises and the
handler returns `False`. -/
def setHashLocal (now : Nat) (k field : String) (v : JVal) (st : Store) : Bool × Store :=
  let (v?, st₁) := getLocal now k st
  let base : JVal := match v? with
    | none => .obj []
    | some w => if w.truthy then w else .obj []
  match base with
  | .obj fields =>
    let fields' := (field, v) :: fields.filter fun fv => fv.1 ≠ field
    setLocal now k (.obj fields') none st₁
  | _ => (false, st₁)

/-- `AureliusDataClient._get_hash_local`: reads the stored hash and returns
`hash_data.get(field)`; a non-mapping stored value makes `.get` raise and the
handler returns `None`. -/
def getHashLocal (now : Nat) (k field : String) (st : Store) : Option JVal × Store :=
  let (v?, st₁) := getLocal now k st
  let base : JVal := match v? with
    | none => .obj []
    | some w => if w.truthy then w else .obj []
  match base with
  | .obj fields =>
    (match fields.find? (fun fv => fv.1 == field) with
     | some fv => some fv.2
     | none => none, st₁)
  | _ => (none, st₁)

/-- `AureliusDataClient._get_all_hash_local`: `await self._get_local(key) or {}`. -/
def getAllHashLocal (now : Nat) (k : String) (st : Store) : JVal × Store :=
  let (v?, st₁) := getLocal now k st
  (match v? with
   | none => JVal.obj []
   | some w => if w.truthy then w else .obj [], st₁)

/-- The store side effect of `_get_local` (possible deletion of an expired
entry) never changes the value a later `_get_local` at the same wall-clock
time observes: a deleted entry was expired, so the direct read would have
returned `None` as well. -/
theorem getLocal_fst_stable (t : Nat) (k k' : String) (st : Store) :
    (getLocal t k' (getLocal t k st).2).1 = (getLocal t k' st).1 := by
  rcases h : storeLookup st k with _ | e
  · simp [getLocal, h]
  · rcases hx : e.expiresAt with _ | exp
    · simp [getLocal, h, hx]
    · by_cases ht : t > exp
      · by_cases hk : k = k'
        · subst hk
          simp [getLocal, h, hx, ht, storeLookup_erase]
        · rcases h' : storeLookup st k' with _ | e'
          · simp [getLocal, h, hx, ht, storeLookup_erase, hk, h']
          · rcases hx' : e'.expiresAt with _ | exp'
            · simp [getLocal, h, hx, ht, storeLookup_erase, hk, h', hx']
            · by_cases ht' : t > exp' <;>
                simp [getLocal, h, hx, ht, storeLookup_erase, hk, h', hx', ht']
      · simp [getLocal, h, hx, ht]

/-- `use_redis and redis_client`-style dispatch: `AureliusDataClient.set`.
`primary` is the outcome of the Redis call (`.error` = raised exception);
on exception while connected the call is retried against local storage. -/
def clientSet (useRedis : Bool) (primary : Except Unit Unit) (now : Nat) (k : String)
    (v : JVal) (expire : Option Nat) (st : Store) : Bool × Store :=
  if useRedis then
    match primary with
    | .ok _ => (true, st)
    | .error _ => setLocal now k v expire st
  else
    setLocal now k v expire st

/-- `AureliusDataClient.get`: the primary outcome carries the (JSON-decoded)
Redis reply; on exception while connected the call is retried locally. -/
def clientGet (useRedis : Bool) (primary : Except Unit (Option JVal)) (now : Nat)
    (k : String) (st : Store) : Option JVal × Store :=
  if useRedis then
    match primary with
    | .ok v? => (v?, st)
    | .error _ => getLocal now k st
  else
    getLocal now k st

/-- `AureliusDataClient.delete`: Redis returns the number of removed keys
(`bool(result)`); on exception while connected the call is retried locally. -/
def clientDelete (useRedis : Bool) (primary : Except Unit Nat) (k : String) (st : Store) :
    Bool × Store :=
  if useRedis then
    match primary with
    | .ok n => (n != 0, st)
    | .error _ => deleteLocal k st
  else
    deleteLocal k st

/-- `AureliusDataClient.exists`: on exception the handler returns `False`
directly — there is **no** local retry. -/
def clientExists (useRedis : Bool) (primary : Except Unit Bool) (k : String) (st : Store) :
    Bool × Store :=
  if useRedis then
    match primary with
    | .ok b => (b, st)
    | .error _ => (false, st)
  else
    (existsLocal k st, st)

/-- `AureliusDataClient.keys`: on exception the handler returns `[]`
directly — there is **no** local retry. -/
def clientKeys (useRedis : Bool) (primary : Except Unit (List String)) (pattern : String)
    (st : Store) : List String × Store :=
  if useRedis then
    match primary with
    | .ok l => (l, st)
    | .error _ => ([], st)
  else
    (keysLocal pattern st, st)

/-- `AureliusDataClient.increment`: on exception the handler returns `0`
directly — there is **no** local retry. -/
def clientIncrement (useRedis : Bool) (primary : Except Unit Int) (now : Nat) (k : String)
    (amount : Int) (st : Store) : Int × Store :=
  if useRedis then
    match primary with
    | .ok n => (n, st)
    | .error _ => (0, st)
  else
    incrementLocal now k amount st

/-- `AureliusDataClient.set_hash`: on exception the handler returns `False`
directly — there is **no** local retry. -/
def clientSetHash (useRedis : Bool) (primary : Except Unit Unit) (now : Nat)
    (k field : String) (v : JVal) (st : Store) : Bool × Store :=
  if useRedis then
    match primary with
    | .ok _ => (true, st)
    | .error _ => (false, st)
  else
    setHashLocal now k field v st

/-- `AureliusDataClient.get_hash`: on exception the handler returns `None`
directly — there is **no** local retry. -/
def clientGetHash (useRedis : Bool) (primary : Except Unit (Option JVal)) (now : Nat)
    (k field : String) (st : Store) : Option JVal × Store :=
  if useRedis then
    match primary with
    | .ok v? => (v?, st)
    | .error _ => (none, st)
  else
    getHashLocal now k field st

/-- `AureliusDataClient.get_all_hash`: on exception the handler returns `{}`
directly — there is **no** local retry. -/
def clientGetAllHash (useRedis : Bool) (primary : Except Unit JVal) (now : Nat)
    (k : String) (st : Store) : JVal × Store :=
  if useRedis then
    match primary with
    | .ok v => (v, st)
    | .error _ => (.obj [], st)
  else
    getAllHashLocal now k st

/-! ### Calendar model for `datetime.now()` / `strftime`

A wall-clock time is a number of seconds `t`; its date is day `t / 86400`,
where day `0` is 0001-01-01 of the proleptic Gregorian calendar — a Monday,
matching Python's `date.toordinal` (ordinal `d + 1`) and `date.weekday()`
(`= d % 7`, Monday = 0). -/

/-- Gregorian leap year, as implemented by `datetime`. -/
def isLeap (y : Nat) : Bool :=
  (y % 4 == 0 && y % 100 != 0) || y % 400 == 0

def daysInYear (y : Nat) : Nat := if isLeap y then 366 else 365

/-- Peels whole years off a day count, starting at year `y`; returns
`(year, zero-based day of year)`.  `fuel` bounds the recursion (each step
consumes at least 365 days). -/
def yearDoyAux : Nat → Nat → Nat → Nat × Nat
  | 0, y, d => (y, d)
  | fuel + 1, y, d =>
    if d < daysInYear y then (y, d) else yearDoyAux fuel (y + 1) (d - daysInYear y)

/-- `(year, tm_yday)` of day `d` (day 0 = 0001-01-01). -/
def yearDoy (d : Nat) : Nat × Nat := yearDoyAux (d + 1) 1 d

def yearOf (d : Nat) : Nat := (yearDoy d).1

/-- Zero-based day of year (`tm_yday`). -/
def doyOf (d : Nat) : Nat := (yearDoy d).2

/-- Days from 0001-01-01 up to the first day of year `y`. -/
def daysBeforeYear : Nat → Nat
  | 0 => 0
  | 1 => 0
  | y + 2 => daysBeforeYear (y + 1) + daysInYear (y + 1)

theorem daysBeforeYear_succ (y : Nat) (hy : 1 ≤ y) :
    daysBeforeYear (y + 1) = daysBeforeYear y + daysInYear y := by
  match y, hy with
  | n + 1, _ => rfl

theorem daysInYear_pos (y : Nat) : 365 ≤ daysInYear y := by
  unfold daysInYear; split <;> omega

theorem yearDoyAux_spec (fuel : Nat) : ∀ y d, 1 ≤ y → d < fuel →
    daysBeforeYear (yearDoyAux fuel y d).1 + (yearDoyAux fuel y d).2 = daysBeforeYear y + d
    ∧ (yearDoyAux fuel y d).2 < daysInYear (yearDoyAux fuel y d).1
    ∧ 1 ≤ (yearDoyAux fuel y d).1 := by
  induction fuel with
  | zero => intro y d _ hd; omega
  | succ fuel ih =>
    intro y d hy hd
    by_cases hlt : d < daysInYear y
    · simp [yearDoyAux, hlt, hy]
    · have h365 := daysInYear_pos y
      have hrec := ih (y + 1) (d - daysInYear y) (by omega) (by omega)
      have hstep := daysBeforeYear_succ y hy
      simp only [yearDoyAux, if_neg hlt]
      refine ⟨?_, hrec.2.1, hrec.2.2⟩
      omega

theorem yearDoy_spec (d : Nat) :
    daysBeforeYear (yearOf d) + doyOf d = d
    ∧ doyOf d < daysInYear (yearOf d) ∧ 1 ≤ yearOf d := by
  have h := yearDoyAux_spec (d + 1) 1 d (by omega) (by omega)
  simpa [yearOf, doyOf, yearDoy, daysBeforeYear] using h

/-- `monday = now - timedelta(days=now.weekday())` at the day level:
`date.weekday()` is `d % 7` with day 0 a Monday. -/
def mondayOf (d : Nat) : Nat := d - d % 7

/-- `strftime("%U")` of day `d`: week of the year with Sunday as first day,
`(tm_yday + 7 - tm_wday) / 7` where `tm_wday` is the Sunday-based weekday
`(d % 7 + 1) % 7`. -/
def uWeekNum (d : Nat) : Nat :=
  (doyOf d + 7 - (d % 7 + 1) % 7) / 7

/--
The pair of numbers embedded in the weekly bucket key: the code computes
`monday = now - timedelta(days=now.weekday())` and formats
`monday.strftime("%Y-W%U")`, i.e. the Monday's calendar year and the
Monday's Sunday-anchored week-of-year number `%U`.
-/
def weeklyKeyPair (d : Nat) : Nat × Nat :=
  (yearOf (mondayOf d), uWeekNum (mondayOf d))

/--
Modelled from the spec: the ISO-8601 week identifier (ISO year, ISO week
number) of day `d`, for comparison with `weeklyKeyPair`.  The ISO week of a
date is the week (Monday-anchored) of its Thursday; the ISO week number
counts that week within the Thursday's year.
-/
def isoWeekPair (d : Nat) : Nat × Nat :=
  let th := mondayOf d + 3
  (yearOf th, doyOf th / 7 + 1)

theorem mondayOf_mod (d : Nat) : mondayOf d % 7 = 0 := by
  unfold mondayOf; omega

/-- On Mondays, `%U` is `(tm_yday + 6) / 7`. -/
theorem uWeekNum_monday (m : Nat) (hm : m % 7 = 0) :
    uWeekNum m = (doyOf m + 6) / 7 := by
  unfold uWeekNum
  rw [hm]
  omega

/-- Injectivity of the weekly key on Mondays: two Mondays with the same
calendar year and the same `%U` number are the same day. -/
theorem weekly_pair_inj (m₁ m₂ : Nat) (h₁ : m₁ % 7 = 0) (h₂ : m₂ % 7 = 0)
    (hy : yearOf m₁ = yearOf m₂) (hu : uWeekNum m₁ = uWeekNum m₂) : m₁ = m₂ := by
  have s₁ := (yearDoy_spec m₁).1
  have s₂ := (yearDoy_spec m₂).1
  rw [uWeekNum_monday m₁ h₁, uWeekNum_monday m₂ h₂] at hu
  rw [hy] at s₁
  omega

/-! ### `AureliusRateLimiter` (src/aurelius/utils/rate_limit.py)

The limiter is modelled over the data client's fallback path (`use_redis`
false): `data_client.get/increment/set/delete` dispatch to the `_..._local`
operations above.  The store and the wall-clock second `t` are threaded
explicitly. -/

/-- Python `str.lower()` (the platform names here are ASCII). -/
def pyLower (s : String) : String :=
  String.mk (s.data.map Char.toLower)

inductive RateLimitPeriod : Type where
  | hourly | daily | weekly | monthly
  deriving DecidableEq

/-- The `value` of the `RateLimitPeriod` enum member. -/
def RateLimitPeriod.value : RateLimitPeriod → String
  | .hourly => "hourly"
  | .daily => "daily"
  | .weekly => "weekly"
  | .monthly => "monthly"

inductive RateLimitResult : Type where
  | allowed | limitReached | limitExceeded
  deriving DecidableEq

/-- `self.platform_limits` as set in `AureliusRateLimiter.__init__`, a dict
in insertion order; `none` models `platform not in self.platform_limits`. -/
def platformLimits? (p : String) : Option (List (RateLimitPeriod × Nat)) :=
  if p = "twitter" then some [(.hourly, 5), (.daily, 50)]
  else if p = "mastodon" then some [(.hourly, 10), (.daily, 100)]
  else if p = "discord" then some [(.hourly, 20), (.daily, 200)]
  else none

/-- Dict lookup `self.platform_limits[platform][period]` (`none` models
`period not in ...`). -/
def lookupPeriod (cfg : List (RateLimitPeriod × Nat)) (p : RateLimitPeriod) : Option Nat :=
  match cfg with
  | [] => none
  | (q, l) :: rest => if q = p then some l else lookupPeriod rest p

/-- `AureliusRateLimiter._get_ttl_seconds`. -/
def ttlSeconds : RateLimitPeriod → Nat
  | .hourly => 3600
  | .daily => 86400
  | .weekly => 604800
  | .monthly => 2592000

/-- Two-digit zero padding, as in `strftime` `%m`/`%d`/`%H`/`%U`. -/
def pad2 (n : Nat) : String :=
  if n < 10 then "0" ++ Nat.repr n else Nat.repr n

def monthLengths (leap : Bool) : List Nat :=
  [31, if leap then 29 else 28, 31, 30, 31, 30, 31, 31, 30, 31, 30, 31]

/-- Converts a zero-based day-of-year to `(month, day)` (both one-based). -/
def monthDayAux : List Nat → Nat → Nat → Nat × Nat
  | [], m, o => (m, o + 1)
  | len :: rest, m, o => if o < len then (m, o + 1) else monthDayAux rest (m + 1) (o - len)

def monthDayOf (d : Nat) : Nat × Nat :=
  monthDayAux (monthLengths (isLeap (yearOf d))) 1 (doyOf d)

/-- The calendar day of second `t`. -/
def secsDay (t : Nat) : Nat := t / 86400

/-- The hour-of-day of second `t` (`%H`). -/
def secsHour (t : Nat) : Nat := t % 86400 / 3600

/-- `strftime("%Y-%m-%d")` of day `d` (glibc `%Y` is unpadded). -/
def dateStr (d : Nat) : String :=
  Nat.repr (yearOf d) ++ "-" ++ pad2 (monthDayOf d).1 ++ "-" ++ pad2 (monthDayOf d).2

/-- The `time_key` computed by `_get_time_window_key` for each period:
`%Y-%m-%d-%H`, `%Y-%m-%d`, Monday's `%Y-W%U`, `%Y-%m`. -/
def timeKeyFor (t : Nat) : RateLimitPeriod → String
  | .hourly => dateStr (secsDay t) ++ "-" ++ pad2 (secsHour t)
  | .daily => dateStr (secsDay t)
  | .weekly =>
    Nat.repr (yearOf (mondayOf (secsDay t))) ++ "-W" ++ pad2 (uWeekNum (mondayOf (secsDay t)))
  | .monthly => Nat.repr (yearOf (secsDay t)) ++ "-" ++ pad2 (monthDayOf (secsDay t)).1

/-- `AureliusRateLimiter._get_time_window_key`:
`f"rate_limit:{platform}:{action}:{period.value}:{time_key}"`. -/
def getTimeWindowKey (t : Nat) (platform : String) (period : RateLimitPeriod)
    (action : String) : String :=
  "rate_limit:" ++ platform ++ ":" ++ action ++ ":" ++ period.value ++ ":" ++ timeKeyFor t period

/-- The limit classification of `check_rate_limit`, given the configured
limit and `int(current or 0)` (`none` = `int()` raised, handled by the
fail-open `except`).  The Python comparison `current >= limit * 0.9` uses a
float product; for every limit configured in `__init__` (5, 10, 20, 50, 100,
200) the double `limit * 0.9` equals the rational `9·limit/10` exactly, so it
is modelled by the exact integer comparison `10·current ≥ 9·limit`. -/
def classifyCount (limit : Nat) : Option Int → RateLimitResult × Int × Nat
  | none => (.allowed, 0, 999999)
  | some c =>
    if c ≥ (limit : Int) then (.limitExceeded, c, limit)
    else if 10 * c ≥ 9 * (limit : Int) then (.limitReached, c, limit)
    else (.allowed, c, limit)

/-- `AureliusRateLimiter.check_rate_limit`.  Returns the
`(result, current_count, limit)` triple and the store after the read (the
read may delete an expired bucket file). -/
def checkRateLimit (t : Nat) (st : Store) (platform action : String)
    (period : RateLimitPeriod) : (RateLimitResult × Int × Nat) × Store :=
  let pl := pyLower platform
  match platformLimits? pl with
  | none => ((.allowed, 0, 999999), st)
  | some cfg =>
    match lookupPeriod cfg period with
    | none => ((.allowed, 0, 999999), st)
    | some limit =>
      let res := getLocal t (getTimeWindowKey t pl period action) st
      (classifyCount limit (pyToInt (pyOrInt0 res.1)), res.2)

/-- `AureliusRateLimiter.increment_usage`: increments the bucket counter and,
when the new count equals `amount` (a fresh bucket), rewrites it with the
period TTL via `data_client.set(key, new_count, expire=ttl)`. -/
def incrementUsage (t : Nat) (st : Store) (platform action : String)
    (period : RateLimitPeriod) (amount : Int) : Int × Store :=
  let pl := pyLower platform
  let key := getTimeWindowKey t pl period action
  let res := incrementLocal t key amount st
  if res.1 = amount then (res.1, (setLocal t key (.int res.1) (some (ttlSeconds period)) res.2).2)
  else res

/-- The `details` dict built by `is_action_allowed`, restricted to the fields
the callers read: `details['allowed']` and `details.get('blocked_by')`. -/
structure AllowedDetails : Type where
  allowed : Bool
  blockedBy : Option RateLimitPeriod
  deriving DecidableEq

/-- The `for period in periods_to_check` loop of `is_action_allowed`:
folds `check_rate_limit` over the periods, clearing `allowed` and overwriting
`blocked_by` whenever a period reports `LIMIT_EXCEEDED`. -/
def checkPeriodsAux (t : Nat) (platform action : String) :
    List RateLimitPeriod → Bool × Option RateLimitPeriod × Store →
    Bool × Option RateLimitPeriod × Store
  | [], acc => acc
  | p :: rest, (al, bb, st) =>
    let res := checkRateLimit t st platform action p
    if res.1.1 = .limitExceeded then
      checkPeriodsAux t platform action rest (false, some p, res.2)
    else
      checkPeriodsAux t platform action rest (al, bb, res.2)

/-- `AureliusRateLimiter.is_action_allowed`: returns `(allowed, details)`. -/
def isActionAllowed (t : Nat) (st : Store) (platform action : String)
    (checkAllPeriods : Bool) : (Bool × AllowedDetails) × Store :=
  match platformLimits? (pyLower platform) with
  | none => ((true, ⟨true, none⟩), st)
  | some cfg =>
    let periods := if checkAllPeriods then cfg.map Prod.fst else [.hourly]
    let res := checkPeriodsAux t platform action periods (true, none, st)
    ((res.1, ⟨res.1, res.2.1⟩), res.2.2)

/-- Outcome of `execute_with_rate_limit`: the operation's value, a raised
`RateLimitExceeded` with its message, or the propagated operation exception. -/
inductive ExecOutcome (ε α : Type) : Type where
  | ok (a : α)
  | rateLimitExceeded (msg : String)
  | opRaised (e : ε)

/-- `AureliusRateLimiter.execute_with_rate_limit`: checks
`is_action_allowed`; raises `RateLimitExceeded` naming
`details.get('blocked_by', 'unknown')` when denied; otherwise runs the
operation (`op`, an `Except`), and on success increments usage for every
configured period of the platform; an operation exception propagates with no
increments. -/
def executeWithRateLimit {ε α : Type} (t : Nat) (st : Store) (platform action : String)
    (op : Except ε α) : ExecOutcome ε α × Store :=
  let res := isActionAllowed t st platform action true
  if res.1.1 then
    match op with
    | .error e => (.opRaised e, res.2)
    | .ok a =>
      let st₂ :=
        match platformLimits? (pyLower platform) with
        | none => res.2
        | some cfg =>
          cfg.foldl (fun s pr => (incrementUsage t s platform action pr.1 1).2) res.2
      (.ok a, st₂)
  else
    (.rateLimitExceeded
      ("Rate limit exceeded for " ++ platform ++ " " ++ action ++ " ("
        ++ (match res.1.2.blockedBy with
            | some p => p.value
            | none => "unknown") ++ ")"),
      res.2)

/-- Python truthiness of a tuple: a tuple is truthy iff non-empty, so a
2-tuple such as the `(allowed, details)` returned by `is_action_allowed` is
always truthy. -/
def pyTruthyPair {α β : Type} (x : α × β) : Bool :=
  let _ := x
  true

/-- The rate-limit guard of `AureliusSystem._social_posting_loop`
(src/aurelius/main.py): `if not await rate_limiter.is_action_allowed(platform,
"post"): continue` — the platform is skipped iff `not (allowed, details)` is
true. -/
def socialLoopSkipsPlatform (t : Nat) (st : Store) (platform : String) : Bool :=
  !(pyTruthyPair (isActionAllowed t st platform "post" true).1)

/-! ### `SecurityValidator.sanitize_text` (src/aurelius/utils/security.py)

The sanitisation pipeline is modelled over `List Char`:
null-byte removal, `html.escape`, `bleach.clean` (third-party, modelled from
its documented behaviour for this call: disallowed tags are stripped, a `<`
with no closing `>` is escaped; on input without angle brackets it is the
identity), removal of the `DANGEROUS_PATTERNS` (each `re.sub(pattern, '',
text, IGNORECASE | DOTALL)` deletes non-overlapping leftmost matches),
whitespace normalisation `re.sub(r'\s+', ' ', text).strip()`, and the final
length truncation.  `\w`/`\s` are modelled at their ASCII core. -/

/-- ASCII whitespace matched by `\s` / stripped by `str.strip()`. -/
def isPyWs (c : Char) : Bool :=
  c = ' ' || c = '\t' || c = '\n' || c = '\r' || c = Char.ofNat 11 || c = Char.ofNat 12

/-- `\w`: word characters. -/
def isWordChar (c : Char) : Bool :=
  c.isAlphanum || c = '_'

/-- `html.escape(text)` on one character (quote=True: also `"` and the
single quote). -/
def htmlEscapeChar (c : Char) : List Char :=
  if c = '&' then "&amp;".data
  else if c = '<' then "&lt;".data
  else if c = '>' then "&gt;".data
  else if c = '"' then "&quot;".data
  else if c = Char.ofNat 39 then "&#x27;".data
  else [c]

/-- `html.escape(text)`. -/
def htmlEscape : List Char → List Char
  | [] => []
  | c :: cs => htmlEscapeChar c ++ htmlEscape cs

def allowedTags : List String := ["b", "i", "em", "strong", "u"]

/-- `bleach.clean(text, tags=ALLOWED_TAGS, attributes={}, strip=True)`,
modelled from the library's documented behaviour: markup between `<` and the
next `>` is kept when its tag name is allowed and stripped otherwise; a `<`
that is never closed is escaped.  `fuel` bounds the recursion by the input
length. -/
def bleachCleanAux : Nat → List Char → List Char
  | 0, _ => []
  | _, [] => []
  | fuel + 1, c :: cs =>
    if c = '<' then
      let tagChars := cs.takeWhile fun ch => ch ≠ '>'
      match cs.drop tagChars.length with
      | '>' :: rest =>
        let inner := if tagChars.head? = some '/' then tagChars.drop 1 else tagChars
        let name := (inner.takeWhile isWordChar).map Char.toLower
        if allowedTags.contains (String.mk name) then
          '<' :: (tagChars ++ '>' :: bleachCleanAux fuel rest)
        else
          bleachCleanAux fuel rest
      | _ => "&lt;".data ++ bleachCleanAux fuel cs
    else
      c :: bleachCleanAux fuel cs

def bleachClean (l : List Char) : List Char :=
  bleachCleanAux l.length l

/-- Deletes, left to right, every non-overlapping match reported by `probe`
(which returns the length of a match starting at the given suffix), as
`re.sub(pattern, '', text)` does; `fuel` bounds the recursion by the input
length.  All the patterns below only match non-empty text. -/
def subDeleteAux (probe : List Char → Option Nat) : Nat → List Char → List Char
  | 0, _ => []
  | _, [] => []
  | fuel + 1, c :: cs =>
    match probe (c :: cs) with
    | some (n + 1) => subDeleteAux probe fuel (List.drop n cs)
    | _ => c :: subDeleteAux probe fuel cs

def subDelete (probe : List Char → Option Nat) (l : List Char) : List Char :=
  subDeleteAux probe l.length l

/-- Case-insensitive `pat` (given lowercase) is a prefix of `l`. -/
def startsWithCI : List Char → List Char → Bool
  | [], _ => true
  | _ :: _, [] => false
  | p :: ps, c :: cs => p == c.toLower && startsWithCI ps cs

/-- Index of the first case-insensitive occurrence of `pat` in `l`. -/
def findCI (pat : List Char) : List Char → Option Nat
  | [] => if pat.isEmpty then some 0 else none
  | c :: cs =>
    if startsWithCI pat (c :: cs) then some 0
    else (findCI pat cs).map (· + 1)

/-- A case-insensitive literal pattern (`javascript:`, `vbscript:`,
`data:text/html`). -/
def matchLit (pat : List Char) (l : List Char) : Option Nat :=
  if startsWithCI pat l then some pat.length else none

/-- `<tag[^>]*>.*?</tag>` with IGNORECASE and DOTALL: the opening tag runs to
the first `>`, the lazy body to the earliest closing tag. -/
def matchTagPair (tag : List Char) (l : List Char) : Option Nat :=
  if startsWithCI ('<' :: tag) l then
    let after := l.drop (1 + tag.length)
    let mid := after.takeWhile fun ch => ch ≠ '>'
    match after.drop mid.length with
    | '>' :: rest =>
      match findCI ('<' :: '/' :: (tag ++ ['>'])) rest with
      | some i => some (1 + tag.length + mid.length + 1 + i + (tag.length + 3))
      | none => none
    | _ => none
  else none

/-- `<tag[^>]*>` (the `link`/`meta` patterns). -/
def matchTagOpen (tag : List Char) (l : List Char) : Option Nat :=
  if startsWithCI ('<' :: tag) l then
    let after := l.drop (1 + tag.length)
    let mid := after.takeWhile fun ch => ch ≠ '>'
    match after.drop mid.length with
    | '>' :: _ => some (1 + tag.length + mid.length + 1)
    | _ => none
  else none

/-- `on\w+\s*=` (event handlers), IGNORECASE. -/
def matchEventHandler (l : List Char) : Option Nat :=
  match l with
  | c₁ :: c₂ :: rest =>
    if c₁.toLower = 'o' && c₂.toLower = 'n' then
      let w := rest.takeWhile isWordChar
      if w.isEmpty then none
      else
        let rest₂ := rest.drop w.length
        let sp := rest₂.takeWhile isPyWs
        match rest₂.drop sp.length with
        | '=' :: _ => some (2 + w.length + sp.length + 1)
        | _ => none
    else none
  | _ => none

/-- `expression\s*\(` (CSS expressions), IGNORECASE. -/
def matchExpression (l : List Char) : Option Nat :=
  if startsWithCI "expression".data l then
    let rest := l.drop 10
    let sp := rest.takeWhile isPyWs
    match rest.drop sp.length with
    | '(' :: _ => some (10 + sp.length + 1)
    | _ => none
  else none

/-- `SecurityValidator.DANGEROUS_PATTERNS`, in source order. -/
def dangerousProbes : List (List Char → Option Nat) :=
  [ matchTagPair "script".data,
    matchLit "javascript:".data,
    matchEventHandler,
    matchTagPair "iframe".data,
    matchTagPair "object".data,
    matchTagPair "embed".data,
    matchTagOpen "link".data,
    matchTagOpen "meta".data,
    matchTagPair "style".data,
    matchLit "data:text/html".data,
    matchLit "vbscript:".data,
    matchExpression ]

/-- The `for pattern in DANGEROUS_PATTERNS: text = re.sub(pattern, '', ...)`
loop. -/
def dangerousSubs (l : List Char) : List Char :=
  dangerousProbes.foldl (fun acc probe => subDelete probe acc) l

/-- Collapses adjacent spaces (with all whitespace already mapped to a
space, this is `re.sub(r'\s+', ' ', text)`). -/
def squeezeSpaces : List Char → List Char
  | [] => []
  | [c] => [c]
  | c₁ :: c₂ :: cs =>
    if c₁ = ' ' && c₂ = ' ' then squeezeSpaces (c₂ :: cs)
    else c₁ :: squeezeSpaces (c₂ :: cs)

/-- `str.strip()`. -/
def pyStrip (l : List Char) : List Char :=
  ((l.dropWhile isPyWs).reverse.dropWhile isPyWs).reverse

/-- Python's `text[:stop]` slice, with negative `stop` counting from the
end (clamped at 0). -/
def pySliceTo (l : List Char) (stop : Int) : List Char :=
  if 0 ≤ stop then l.take stop.toNat
  else l.take (l.length - min l.length stop.natAbs)

/-- The final `if max_length and len(text) > max_length:
text = text[:max_length-3] + "..."` step (`max_length = 0` is falsy). -/
def truncateStep (maxLength : Option Int) (l : List Char) : List Char :=
  match maxLength with
  | none => l
  | some m =>
    if m ≠ 0 ∧ (l.length : Int) > m then pySliceTo l (m - 3) ++ "...".data
    else l

/-- `SecurityValidator.sanitize_text(text, max_length)`. -/
def sanitizeText (s : String) (maxLength : Option Int) : String :=
  String.mk (truncateStep maxLength
    (pyStrip (squeezeSpaces
      ((dangerousSubs (bleachClean (htmlEscape
        (s.data.filter fun c => c ≠ Char.ofNat 0)))).map
        fun c => if isPyWs c then ' ' else c))))

/-! ### Helper lemmas about the local store operations -/

theorem getLocal_of_lookup_none (now : Nat) (k : String) (st : Store)
    (h : storeLookup st k = none) : getLocal now k st = (none, st) := by
  simp [getLocal, h]

theorem getLocal_fst_of_lookup_eq (now : Nat) (k : String) (st₁ st₂ : Store)
    (h : storeLookup st₁ k = storeLookup st₂ k) :
    (getLocal now k st₁).1 = (getLocal now k st₂).1 := by
  unfold getLocal
  rw [h]
  rcases storeLookup st₂ k with _ | e
  · rfl
  · rcases hx : e.expiresAt with _ | exp
    · simp [hx]
    · by_cases ht : now > exp <;> simp [hx, ht]

/-- `_increment_local`, rewritten by the outcome of the read. -/
theorem incrementLocal_eq (now : Nat) (k : String) (amount : Int) (st : Store) :
    incrementLocal now k amount st =
      match pyToInt (pyOrInt0 (getLocal now k st).1) with
      | none => (0, (getLocal now k st).2)
      | some c => (c + amount, storeSet (getLocal now k st).2 k ⟨.int (c + amount), now, none⟩) := by
  unfold incrementLocal
  rcases hv : pyToInt (pyOrInt0 (getLocal now k st).1) with _ | c <;>
    simp [hv, setLocal]

/-! ### Claim theorems -/

/--
**C2.** In the supervisor's social-posting loop, the guard
`not await rate_limiter.is_action_allowed(platform, "post")` is false for
every rate-limiter state and platform, because `is_action_allowed` returns a
two-element tuple, which is truthy even when `allowed` is false; the posting
loop therefore never skips a platform due to rate limits.  The second
conjunct exhibits a state in which the action is in fact rate-limited
(`allowed = false`) and the loop still does not skip.
-/
theorem social_posting_loop_never_skips :
    (∀ t st platform, socialLoopSkipsPlatform t st platform = false)
    ∧ ∃ t st platform,
        ((isActionAllowed t st platform "post" true).1).1 = false
        ∧ socialLoopSkipsPlatform t st platform = false := by
  refine ⟨fun _ _ _ => rfl, 0,
    [(getTimeWindowKey 0 "twitter" RateLimitPeriod.hourly "post", ⟨JVal.int 5, 0, none⟩)],
    "twitter", by decide, rfl⟩

/--
**C6 (amended).** When the primary store raises during a call in Connected
state (`use_redis` true), only `set`, `get` and `delete` are retried against
the local store; `exists`, `keys`, `increment` and the hash operations
instead return their bare failure sentinel (`False`, `[]`, `0`, `None`, `{}`)
with the local store untouched.
-/
theorem primary_failure_fallback_behaviour :
    (∀ now k v expire st, clientSet true (.error ()) now k v expire st = setLocal now k v expire st)
    ∧ (∀ now k st, clientGet true (.error ()) now k st = getLocal now k st)
    ∧ (∀ k st, clientDelete true (.error ()) k st = deleteLocal k st)
    ∧ (∀ k st, clientExists true (.error ()) k st = (false, st))
    ∧ (∀ pattern st, clientKeys true (.error ()) pattern st = ([], st))
    ∧ (∀ now k amount st, clientIncrement true (.error ()) now k amount st = (0, st))
    ∧ (∀ now k field v st, clientSetHash true (.error ()) now k field v st = (false, st))
    ∧ (∀ now k field st, clientGetHash true (.error ()) now k field st = (none, st))
    ∧ (∀ now k st, clientGetAllHash true (.error ()) now k st = (.obj [], st)) :=
  ⟨fun _ _ _ _ _ => rfl, fun _ _ _ => rfl, fun _ _ => rfl, fun _ _ => rfl,
   fun _ _ => rfl, fun _ _ _ _ => rfl, fun _ _ _ _ _ => rfl, fun _ _ _ _ => rfl,
   fun _ _ _ => rfl⟩

/--
**C6, counterexample to the claim as stated.** `increment` in Connected state
with a raising primary returns the sentinel `0` and leaves the store alone,
whereas the retried-locally call the claim describes would return `1`: the
caller observes the failure sentinel, not the local-store result.
-/
theorem increment_no_local_retry_counterexample :
    (clientIncrement true (.error ()) 0 "k" 1 []).1 = 0
    ∧ (incrementLocal 0 "k" 1 []).1 = 1
    ∧ (0 : Int) ≠ 1 :=
  ⟨rfl, rfl, by decide⟩

/--
**C7.** On the fallback (local-file) path, `set(k, v)` followed by `get(k)`
returns exactly `v`, for every JSON-representable value (mapping, sequence or
scalar), whenever the read happens before the write's expiry (or the write
had no or a falsy expiry).
-/
theorem set_get_roundtrip (now now' : Nat) (k : String) (v : JVal) (expire : Option Nat)
    (st : Store) (pr₁ : Except Unit Unit) (pr₂ : Except Unit (Option JVal))
    (hexp : ∀ e, expire = some e → e ≠ 0 → now' ≤ now + e) :
    (clientGet false pr₂ now' k (clientSet false pr₁ now k v expire st).2).1 = some v := by
  show (getLocal now' k (setLocal now k v expire st).2).1 = some v
  unfold setLocal getLocal
  rcases expire with _ | e
  · simp [storeLookup_set]
  · by_cases he : e = 0
    · simp [he, storeLookup_set]
    · have hle := hexp e rfl he
      have hnot : ¬ now' > now + e := by omega
      simp [he, storeLookup_set, hnot]

/-- **C7 witness.** -/
theorem set_get_roundtrip_witness :
    (clientGet false (.ok none) 5 "lead" (clientSet false (.ok ()) 0 "lead"
      (.obj [("name", .str "ada")]) (some 10) []).2).1 = some (.obj [("name", .str "ada")]) :=
  set_get_roundtrip 0 5 "lead" (.obj [("name", .str "ada")]) (some 10) [] (.ok ()) (.ok none)
    (fun e he _ => by
      injection he with h
      omega)

theorem ttlSeconds_ne_zero (p : RateLimitPeriod) : ttlSeconds p ≠ 0 := by
  cases p <;> simp [ttlSeconds]

/--
**C8.** On the local fallback path, incrementing a key rewrites its entry
with `expires_at = None` (first conjunct: whenever `int(current or 0)`
succeeds — in particular for every already stored integer counter — the
post-increment entry has no expiry).  Consequently (second conjunct) a
fallback-stored rate-limit bucket counter carries its period TTL after the
first `increment_usage` of the bucket, and loses it on the second
`increment_usage` within the same bucket.
-/
theorem increment_local_drops_ttl :
    (∀ now k amount st c,
      pyToInt (pyOrInt0 (getLocal now k st).1) = some c →
      storeLookup (incrementLocal now k amount st).2 k
        = some ⟨.int (c + amount), now, none⟩)
    ∧ ∀ t st platform action period,
        storeLookup st (getTimeWindowKey t (pyLower platform) period action) = none →
        storeLookup (incrementUsage t st platform action period 1).2
            (getTimeWindowKey t (pyLower platform) period action)
          = some ⟨.int 1, t, some (t + ttlSeconds period)⟩
        ∧ storeLookup
            (incrementUsage t (incrementUsage t st platform action period 1).2
              platform action period 1).2
            (getTimeWindowKey t (pyLower platform) period action)
          = some ⟨.int 2, t, none⟩ := by
  have hmain : ∀ now k amount st c,
      pyToInt (pyOrInt0 (getLocal now k st).1) = some c →
      storeLookup (incrementLocal now k amount st).2 k
        = some ⟨.int (c + amount), now, none⟩ := by
    intro now k amount st c hc
    rw [incrementLocal_eq, hc]
    simp [storeLookup_set]
  refine ⟨hmain, ?_⟩
  intro t st platform action period hnone
  have hget : getLocal t (getTimeWindowKey t (pyLower platform) period action) st = (none, st) :=
    getLocal_of_lookup_none _ _ _ hnone
  have hinc₁ : incrementLocal t (getTimeWindowKey t (pyLower platform) period action) 1 st
      = (1, storeSet st (getTimeWindowKey t (pyLower platform) period action)
          ⟨.int 1, t, none⟩) := by
    rw [incrementLocal_eq, hget]
    simp [pyOrInt0, pyToInt]
  have hu₁ : incrementUsage t st platform action period 1
      = (1, storeSet
          (storeSet st (getTimeWindowKey t (pyLower platform) period action) ⟨.int 1, t, none⟩)
          (getTimeWindowKey t (pyLower platform) period action)
          ⟨.int 1, t, some (t + ttlSeconds period)⟩) := by
    simp only [incrementUsage]
    rw [hinc₁]
    simp [setLocal, ttlSeconds_ne_zero]
  have hl₁ : storeLookup (incrementUsage t st platform action period 1).2
      (getTimeWindowKey t (pyLower platform) period action)
      = some ⟨.int 1, t, some (t + ttlSeconds period)⟩ := by
    rw [hu₁]
    simp [storeLookup_set]
  refine ⟨hl₁, ?_⟩
  generalize hST : (incrementUsage t st platform action period 1).2 = ST at hl₁ ⊢
  have hnexp : ¬ t > t + ttlSeconds period := by omega
  have hget₂ : getLocal t (getTimeWindowKey t (pyLower platform) period action) ST
      = (some (.int 1), ST) := by
    unfold getLocal
    rw [hl₁]
    simp [hnexp]
  have hinc₂ : incrementLocal t (getTimeWindowKey t (pyLower platform) period action) 1 ST
      = (2, storeSet ST (getTimeWindowKey t (pyLower platform) period action)
          ⟨.int 2, t, none⟩) := by
    rw [incrementLocal_eq, hget₂]
    have h1 : pyToInt (pyOrInt0 (some (JVal.int 1))) = some 1 := rfl
    rw [h1]
    norm_num
  simp only [incrementUsage]
  rw [hinc₂]
  norm_num [storeLookup_set]

/-- **C8 witness.** A twitter hourly bucket at `t = 0`: the first
`increment_usage` stores the counter with the hourly TTL, the second rewrites
it with no expiry. -/
theorem increment_local_drops_ttl_witness :
    storeLookup (incrementUsage 0 [] "twitter" "post" RateLimitPeriod.hourly 1).2
        (getTimeWindowKey 0 (pyLower "twitter") RateLimitPeriod.hourly "post")
      = some ⟨.int 1, 0, some 3600⟩
    ∧ storeLookup
        (incrementUsage 0 (incrementUsage 0 [] "twitter" "post" RateLimitPeriod.hourly 1).2
          "twitter" "post" RateLimitPeriod.hourly 1).2
        (getTimeWindowKey 0 (pyLower "twitter") RateLimitPeriod.hourly "post")
      = some ⟨.int 2, 0, none⟩ :=
  increment_local_drops_ttl.2 0 [] "twitter" "post" RateLimitPeriod.hourly rfl

/--
**C9.** `check_rate_limit` fails open: an unknown platform, or a configured
platform queried with an unconfigured period, yields `(ALLOWED, 0, 999999)` —
a zero count against an effectively unlimited ceiling — rather than a denial
or an exception.
-/
theorem check_rate_limit_fail_open (t : Nat) (st : Store) (platform action : String)
    (period : RateLimitPeriod) :
    (platformLimits? (pyLower platform) = none →
      checkRateLimit t st platform action period = ((.allowed, 0, 999999), st))
    ∧ ∀ cfg, platformLimits? (pyLower platform) = some cfg →
        lookupPeriod cfg period = none →
        checkRateLimit t st platform action period = ((.allowed, 0, 999999), st) := by
  constructor
  · intro h
    simp [checkRateLimit, h]
  · intro cfg hcfg hper
    simp [checkRateLimit, hcfg, hper]

/-- **C9 witness.** The platform `facebook` is not configured; `twitter`
has no weekly limit. -/
theorem check_rate_limit_fail_open_witness :
    checkRateLimit 0 [] "facebook" "post" RateLimitPeriod.hourly
      = ((.allowed, 0, 999999), [])
    ∧ checkRateLimit 0 [] "twitter" "post" RateLimitPeriod.weekly
      = ((.allowed, 0, 999999), []) :=
  ⟨(check_rate_limit_fail_open 0 [] "facebook" "post" RateLimitPeriod.hourly).1 rfl,
   (check_rate_limit_fail_open 0 [] "twitter" "post" RateLimitPeriod.weekly).2
     [(.hourly, 5), (.daily, 50)] rfl rfl⟩

/--
**C1 (amended).** For a platform and period with configured limit `L`,
`check_rate_limit` classifies a bucket count `c` as: `LIMIT_EXCEEDED` iff
`c ≥ L`; `LIMIT_REACHED` iff `c < L` and `10·c ≥ 9·L` (the exact form of
`c ≥ L * 0.9`); `ALLOWED` iff `10·c < 9·L`.  Consequently, at `c = L - 1`
(the count after `L - 1` increments in one bucket) the result is
`LIMIT_REACHED` **iff `L ≥ 10`** — not unconditionally, as the claim states.
-/
theorem check_rate_limit_classification (t : Nat) (st : Store) (platform action : String)
    (period : RateLimitPeriod) (cfg : List (RateLimitPeriod × Nat)) (L : Nat) (c : Int)
    (hp : platformLimits? (pyLower platform) = some cfg)
    (hl : lookupPeriod cfg period = some L)
    (hc : pyToInt (pyOrInt0
      (getLocal t (getTimeWindowKey t (pyLower platform) period action) st).1) = some c) :
    (((checkRateLimit t st platform action period).1).1 = .limitExceeded ↔ (L : Int) ≤ c)
    ∧ (((checkRateLimit t st platform action period).1).1 = .limitReached
        ↔ c < (L : Int) ∧ 9 * (L : Int) ≤ 10 * c)
    ∧ (((checkRateLimit t st platform action period).1).1 = .allowed ↔ 10 * c < 9 * (L : Int))
    ∧ (c = (L : Int) - 1 → 1 ≤ L →
        (((checkRateLimit t st platform action period).1).1 = .limitReached ↔ 10 ≤ L)) := by
  have hr : (checkRateLimit t st platform action period).1 = classifyCount L (some c) := by
    simp only [checkRateLimit, hp, hl, hc]
  rw [hr]
  by_cases h₁ : (L : Int) ≤ c
  · have hres : classifyCount L (some c) = (.limitExceeded, c, L) := by
      simp only [classifyCount]
      rw [if_pos (by omega : c ≥ (L : Int))]
    rw [hres]
    refine ⟨⟨fun _ => h₁, fun _ => rfl⟩,
      ⟨fun h => RateLimitResult.noConfusion h, fun h => by omega⟩,
      ⟨fun h => RateLimitResult.noConfusion h, fun h => by omega⟩, ?_⟩
    intro hcl hL
    exact ⟨fun h => RateLimitResult.noConfusion h, fun h10 => by omega⟩
  · by_cases h₂ : 9 * (L : Int) ≤ 10 * c
    · have hres : classifyCount L (some c) = (.limitReached, c, L) := by
        simp only [classifyCount]
        rw [if_neg (by omega : ¬ c ≥ (L : Int)), if_pos (by omega : 10 * c ≥ 9 * (L : Int))]
      rw [hres]
      refine ⟨⟨fun h => RateLimitResult.noConfusion h, fun h => (h₁ h).elim⟩,
        ⟨fun _ => ⟨by omega, h₂⟩, fun _ => rfl⟩,
        ⟨fun h => RateLimitResult.noConfusion h, fun h => by omega⟩, ?_⟩
      intro hcl hL
      exact ⟨fun _ => by omega, fun _ => rfl⟩
    · have hres : classifyCount L (some c) = (.allowed, c, L) := by
        simp only [classifyCount]
        rw [if_neg (by omega : ¬ c ≥ (L : Int)), if_neg (by omega : ¬ 10 * c ≥ 9 * (L : Int))]
      rw [hres]
      refine ⟨⟨fun h => RateLimitResult.noConfusion h, fun h => (h₁ h).elim⟩,
        ⟨fun h => RateLimitResult.noConfusion h, fun h => (h₂ h.2).elim⟩,
        ⟨fun _ => by omega, fun _ => rfl⟩, ?_⟩
      intro hcl hL
      exact ⟨fun h => RateLimitResult.noConfusion h, fun h10 => by omega⟩

/-- **C1 witness.** Twitter daily (limit 50) with an empty store: count 0,
classified `ALLOWED` since `10·0 < 9·50`. -/
theorem check_rate_limit_classification_witness :
    ((checkRateLimit 0 [] "twitter" "post" RateLimitPeriod.daily).1).1
      = RateLimitResult.allowed ↔ 10 * (0 : Int) < 9 * ((50 : Nat) : Int) :=
  (check_rate_limit_classification 0 [] "twitter" "post" RateLimitPeriod.daily
    [(.hourly, 5), (.daily, 50)] 50 0 rfl rfl rfl).2.2.1

/--
**C1, counterexample to the claim as stated.** For twitter hourly the
configured limit is `L = 5`; after `L - 1 = 4` calls of `increment_usage`
within one bucket the count is 4 and `check_rate_limit` returns `ALLOWED`
(`4 < 5 · 0.9 = 4.5`), not `LIMIT_REACHED` as the claim asserts.
-/
theorem check_rate_limit_at_limit_minus_one_counterexample :
    (checkRateLimit 0
      (incrementUsage 0
        (incrementUsage 0
          (incrementUsage 0
            (incrementUsage 0 [] "twitter" "post" RateLimitPeriod.hourly 1).2
            "twitter" "post" RateLimitPeriod.hourly 1).2
          "twitter" "post" RateLimitPeriod.hourly 1).2
        "twitter" "post" RateLimitPeriod.hourly 1).2
      "twitter" "post" RateLimitPeriod.hourly).1
      = (RateLimitResult.allowed, 4, 5)
    ∧ RateLimitResult.allowed ≠ RateLimitResult.limitReached := by
  exact ⟨by decide, by decide⟩

/--
**C5 (amended).** The weekly bucket key embeds, via `monday.strftime("%Y-W%U")`
for `monday = now - timedelta(days=now.weekday())`, the pair
(calendar year of the week's Monday, Sunday-anchored `%U` week number of that
Monday) — `weeklyKeyPair` (first conjunct, definitional).  This identifier is
stable within a Monday-to-Sunday week and changes exactly at the Monday 00:00
boundary: two days produce the same pair iff they share their Monday (second
conjunct).  It is, however, not the ISO-week identifier (see the
counterexample).
-/
theorem weekly_key_same_iff_same_week :
    (∀ t : Nat, timeKeyFor t .weekly
      = Nat.repr (weeklyKeyPair (secsDay t)).1 ++ "-W" ++ pad2 (weeklyKeyPair (secsDay t)).2)
    ∧ ∀ d₁ d₂ : Nat, weeklyKeyPair d₁ = weeklyKeyPair d₂ ↔ mondayOf d₁ = mondayOf d₂ := by
  constructor
  · intro t
    rfl
  · intro d₁ d₂
    constructor
    · intro h
      have hy : (weeklyKeyPair d₁).1 = (weeklyKeyPair d₂).1 := congrArg Prod.fst h
      have hu : (weeklyKeyPair d₁).2 = (weeklyKeyPair d₂).2 := congrArg Prod.snd h
      exact weekly_pair_inj _ _ (mondayOf_mod d₁) (mondayOf_mod d₂) hy hu
    · intro h
      unfold weeklyKeyPair
      rw [h]

/--
**C5, counterexample to the claim as stated.** Day 1099 is Monday
0004-01-05 (year 4 begins on a Thursday).  Its ISO week identifier is week 2
of year 4, but the weekly bucket key embeds `%U = 1`: the key does not embed
the ISO-week identifier of the time.
-/
theorem weekly_key_not_iso_counterexample :
    weeklyKeyPair 1099 = (4, 1) ∧ isoWeekPair 1099 = (4, 2)
    ∧ weeklyKeyPair 1099 ≠ isoWeekPair 1099 :=
  ⟨by decide, by decide, by decide⟩

/-! ### Store-result equivalence, for reasoning about sequences of checks

`check_rate_limit`'s only store effect is the possible deletion of an
already-expired entry by `_get_local`, which never changes what a later read
at the same wall-clock time observes. -/

def ResEq (t : Nat) (st₀ st' : Store) : Prop :=
  ∀ k, (getLocal t k st').1 = (getLocal t k st₀).1

theorem resEq_refl (t : Nat) (st : Store) : ResEq t st st := fun _ => rfl

theorem resEq_getLocal (t : Nat) (st₀ st' : Store) (k : String) (h : ResEq t st₀ st') :
    ResEq t st₀ (getLocal t k st').2 := by
  intro k'
  rw [getLocal_fst_stable]
  exact h k'

theorem checkRateLimit_congr (t : Nat) (st₀ st' : Store) (platform action : String)
    (per : RateLimitPeriod) (h : ResEq t st₀ st') :
    (checkRateLimit t st' platform action per).1 = (checkRateLimit t st₀ platform action per).1
    ∧ ResEq t st₀ (checkRateLimit t st' platform action per).2 := by
  rcases hpl : platformLimits? (pyLower platform) with _ | cfg
  · constructor
    · simp [checkRateLimit, hpl]
    · simpa [checkRateLimit, hpl] using h
  · rcases hlp : lookupPeriod cfg per with _ | limit
    · constructor
      · simp [checkRateLimit, hpl, hlp]
      · simpa [checkRateLimit, hpl, hlp] using h
    · constructor
      · simp only [checkRateLimit, hpl, hlp]
        rw [h (getTimeWindowKey t (pyLower platform) per action)]
      · simp only [checkRateLimit, hpl, hlp]
        exact resEq_getLocal t st₀ st' _ h

/-- Invariant of the `is_action_allowed` period loop: relative to any store
`st₀` result-equivalent to the running store, the final `allowed` flag is
false iff it was already false or some listed period is exceeded at `st₀`;
the running store stays result-equivalent; and a correct `blocked_by`
(naming an exceeded period whenever `allowed` is false) stays correct. -/
theorem checkPeriodsAux_spec (t : Nat) (platform action : String)
    (ps : List RateLimitPeriod) :
    ∀ (al : Bool) (bb : Option RateLimitPeriod) (st₀ st' : Store), ResEq t st₀ st' →
      ((checkPeriodsAux t platform action ps (al, bb, st')).1 = false
        ↔ (al = false ∨ ∃ p ∈ ps,
            ((checkRateLimit t st₀ platform action p).1).1 = .limitExceeded))
      ∧ ResEq t st₀ (checkPeriodsAux t platform action ps (al, bb, st')).2.2
      ∧ ((al = false → ∃ p, bb = some p
            ∧ ((checkRateLimit t st₀ platform action p).1).1 = .limitExceeded) →
         (checkPeriodsAux t platform action ps (al, bb, st')).1 = false →
          ∃ p, (checkPeriodsAux t platform action ps (al, bb, st')).2.1 = some p
            ∧ ((checkRateLimit t st₀ platform action p).1).1 = .limitExceeded) := by
  induction ps with
  | nil =>
    intro al bb st₀ st' h
    refine ⟨by simp [checkPeriodsAux], h, ?_⟩
    intro hinv hfalse
    exact hinv hfalse
  | cons p rest ih =>
    intro al bb st₀ st' h
    have hc := checkRateLimit_congr t st₀ st' platform action p h
    by_cases hx : ((checkRateLimit t st' platform action p).1).1 = .limitExceeded
    · have hx₀ : ((checkRateLimit t st₀ platform action p).1).1 = .limitExceeded := by
        rw [← hc.1]; exact hx
      have hstep : checkPeriodsAux t platform action (p :: rest) (al, bb, st')
          = checkPeriodsAux t platform action rest
              (false, some p, (checkRateLimit t st' platform action p).2) := by
        simp [checkPeriodsAux, hx]
      have hrec := ih false (some p) st₀ (checkRateLimit t st' platform action p).2 hc.2
      rw [hstep]
      refine ⟨?_, hrec.2.1, ?_⟩
      · rw [hrec.1]
        simp only [List.mem_cons]
        constructor
        · intro _
          exact Or.inr ⟨p, Or.inl rfl, hx₀⟩
        · intro _
          simp
      · intro _ hfalse
        exact hrec.2.2 (fun _ => ⟨p, rfl, hx₀⟩) hfalse
    · have hx₀ : ¬ ((checkRateLimit t st₀ platform action p).1).1 = .limitExceeded := by
        rw [← hc.1]; exact hx
      have hstep : checkPeriodsAux t platform action (p :: rest) (al, bb, st')
          = checkPeriodsAux t platform action rest
              (al, bb, (checkRateLimit t st' platform action p).2) := by
        simp [checkPeriodsAux, hx]
      have hrec := ih al bb st₀ (checkRateLimit t st' platform action p).2 hc.2
      rw [hstep]
      refine ⟨?_, hrec.2.1, hrec.2.2⟩
      rw [hrec.1]
      simp only [List.mem_cons]
      constructor
      · rintro (hal | ⟨q, hq, hqe⟩)
        · exact Or.inl hal
        · exact Or.inr ⟨q, Or.inr hq, hqe⟩
      · rintro (hal | ⟨q, hq | hq, hqe⟩)
        · exact Or.inl hal
        · exact absurd (hq ▸ hqe) hx₀
        · exact Or.inr ⟨q, hq, hqe⟩

/--
**C4.** For a configured platform, `is_action_allowed` with
`check_all_periods` true returns `allowed = false` exactly when at least one
configured period reports `LIMIT_EXCEEDED` against the current store; it
returns `allowed = true` when no configured period is exceeded.
-/
theorem is_action_allowed_conjunctive (t : Nat) (st : Store) (platform action : String)
    (cfg : List (RateLimitPeriod × Nat))
    (hp : platformLimits? (pyLower platform) = some cfg) :
    ((isActionAllowed t st platform action true).1).1 = false
      ↔ ∃ p ∈ cfg.map Prod.fst,
          ((checkRateLimit t st platform action p).1).1 = .limitExceeded := by
  have h := checkPeriodsAux_spec t platform action (cfg.map Prod.fst) true none st st
    (resEq_refl t st)
  have hred : ((isActionAllowed t st platform action true).1).1
      = (checkPeriodsAux t platform action (cfg.map Prod.fst) (true, none, st)).1 := by
    simp [isActionAllowed, hp]
  rw [hred, h.1]
  simp

/-- **C4 witness.** Twitter against an empty store. -/
theorem is_action_allowed_conjunctive_witness :
    ((isActionAllowed 0 [] "twitter" "post" true).1).1 = false
      ↔ ∃ p ∈ ([(RateLimitPeriod.hourly, 5), (RateLimitPeriod.daily, 50)].map Prod.fst),
          ((checkRateLimit 0 [] "twitter" "post" p).1).1 = RateLimitResult.limitExceeded :=
  is_action_allowed_conjunctive 0 [] "twitter" "post"
    [(RateLimitPeriod.hourly, 5), (RateLimitPeriod.daily, 50)] rfl

/-! ### Distinctness of bucket keys across periods -/

def periodChar : RateLimitPeriod → Char
  | .hourly => 'h'
  | .daily => 'd'
  | .weekly => 'w'
  | .monthly => 'm'

theorem periodValue_head (p : RateLimitPeriod) (s : String) :
    (p.value ++ s).data.head? = some (periodChar p) := by
  cases p <;> simp [RateLimitPeriod.value, periodChar, String.data_append]

/-- The period segment of `_get_time_window_key` keys makes keys of distinct
periods distinct (for the same time, platform and action): the four period
names start with four different characters. -/
theorem getTimeWindowKey_period_inj (t : Nat) (pl action : String) (p q : RateLimitPeriod)
    (h : getTimeWindowKey t pl p action = getTimeWindowKey t pl q action) : p = q := by
  have hsplit : ∀ r : RateLimitPeriod, (getTimeWindowKey t pl r action).data
      = ("rate_limit:" ++ pl ++ ":" ++ action ++ ":").data
        ++ (r.value ++ (":" ++ timeKeyFor t r)).data := by
    intro r
    simp [getTimeWindowKey, String.data_append, List.append_assoc]
  have hd : ((getTimeWindowKey t pl p action).data.drop
        ("rate_limit:" ++ pl ++ ":" ++ action ++ ":").data.length).head?
      = ((getTimeWindowKey t pl q action).data.drop
        ("rate_limit:" ++ pl ++ ":" ++ action ++ ":").data.length).head? := by
    rw [h]
  rw [hsplit p, hsplit q, List.drop_left, List.drop_left, periodValue_head, periodValue_head]
    at hd
  injection hd with hd
  cases p <;> cases q <;> simp_all [periodChar]

theorem getTimeWindowKey_period_ne (t : Nat) (pl action : String) {p q : RateLimitPeriod}
    (h : p ≠ q) : getTimeWindowKey t pl p action ≠ getTimeWindowKey t pl q action :=
  fun heq => h (getTimeWindowKey_period_inj t pl action p q heq)

/-! ### Effect of `increment_usage` on bucket counts -/

theorem pyToInt_pyOrInt0_int (n : Int) :
    pyToInt (pyOrInt0 (some (.int n))) = some n := by
  by_cases h : n = 0 <;> simp [pyOrInt0, pyToInt, JVal.truthy, h]

theorem incrementLocal_lookup_other (now : Nat) (kq kp : String) (a : Int) (st : Store)
    (hne : kq ≠ kp) :
    storeLookup (incrementLocal now kq a st).2 kp = storeLookup st kp := by
  rw [incrementLocal_eq]
  have hg : storeLookup (getLocal now kq st).2 kp = storeLookup st kp := by
    unfold getLocal
    rcases hl : storeLookup st kq with _ | e
    · rfl
    · rcases hx : e.expiresAt with _ | exp
      · simp [hx]
      · by_cases ht : now > exp
        · simp [hx, ht, storeLookup_erase, hne]
        · simp [hx, ht]
  rcases pyToInt (pyOrInt0 (getLocal now kq st).1) with _ | c
  · simpa using hg
  · simpa [setLocal, storeLookup_set, hne] using hg

/-- An `increment_usage` for period `q` leaves the bucket file of any other
key untouched. -/
theorem incrementUsage_lookup_other (t : Nat) (st : Store) (platform action : String)
    (q : RateLimitPeriod) (kp : String)
    (hne : getTimeWindowKey t (pyLower platform) q action ≠ kp) :
    storeLookup (incrementUsage t st platform action q 1).2 kp = storeLookup st kp := by
  simp only [incrementUsage]
  by_cases hres :
      (incrementLocal t (getTimeWindowKey t (pyLower platform) q action) 1 st).1 = 1
  · rw [if_pos hres]
    simp only [setLocal]
    rw [storeLookup_set]
    simp only [if_neg hne]
    exact incrementLocal_lookup_other t _ kp 1 st hne
  · rw [if_neg hres]
    exact incrementLocal_lookup_other t _ kp 1 st hne

/-- An `increment_usage` for period `p` raises the count read back from
`p`'s own bucket by one (whenever the pre-state count reads as an integer). -/
theorem incrementUsage_count_self (t : Nat) (st : Store) (platform action : String)
    (p : RateLimitPeriod) (c : Int)
    (hc : pyToInt (pyOrInt0
      (getLocal t (getTimeWindowKey t (pyLower platform) p action) st).1) = some c) :
    pyToInt (pyOrInt0 (getLocal t (getTimeWindowKey t (pyLower platform) p action)
      (incrementUsage t st platform action p 1).2).1) = some (c + 1) := by
  have hinc : incrementLocal t (getTimeWindowKey t (pyLower platform) p action) 1 st
      = (c + 1, storeSet (getLocal t (getTimeWindowKey t (pyLower platform) p action) st).2
          (getTimeWindowKey t (pyLower platform) p action) ⟨.int (c + 1), t, none⟩) := by
    rw [incrementLocal_eq, hc]
  have hnexp : ¬ t > t + ttlSeconds p := by omega
  simp only [incrementUsage]
  rw [hinc]
  by_cases h1 : c + 1 = 1
  · have h0 : c = 0 := by omega
    subst h0
    simp [setLocal, getLocal, storeLookup_set, ttlSeconds_ne_zero, hnexp, pyOrInt0, pyToInt,
      JVal.truthy]
  · rw [if_neg h1]
    simp [getLocal, storeLookup_set, pyToInt_pyOrInt0_int]

theorem isActionAllowed_parts (t : Nat) (st : Store) (platform action : String)
    (cfg : List (RateLimitPeriod × Nat)) (hp : platformLimits? (pyLower platform) = some cfg) :
    ((isActionAllowed t st platform action true).1).1
      = (checkPeriodsAux t platform action (cfg.map Prod.fst) (true, none, st)).1
    ∧ ((isActionAllowed t st platform action true).1).2.blockedBy
      = (checkPeriodsAux t platform action (cfg.map Prod.fst) (true, none, st)).2.1
    ∧ (isActionAllowed t st platform action true).2
      = (checkPeriodsAux t platform action (cfg.map Prod.fst) (true, none, st)).2.2 := by
  refine ⟨?_, ?_, ?_⟩ <;> simp [isActionAllowed, hp]

theorem executeWithRateLimit_denied {ε α : Type} (t : Nat) (st : Store)
    (platform action : String) (op : Except ε α)
    (hfalse : ((isActionAllowed t st platform action true).1).1 = false) :
    executeWithRateLimit t st platform action op
      = (.rateLimitExceeded ("Rate limit exceeded for " ++ platform ++ " " ++ action ++ " ("
          ++ (match ((isActionAllowed t st platform action true).1).2.blockedBy with
              | some p => p.value
              | none => "unknown") ++ ")"),
         (isActionAllowed t st platform action true).2) := by
  simp [executeWithRateLimit, hfalse]

theorem executeWithRateLimit_ok {ε α : Type} (t : Nat) (st : Store)
    (platform action : String) (a : α) (cfg : List (RateLimitPeriod × Nat))
    (hp : platformLimits? (pyLower platform) = some cfg)
    (htrue : ((isActionAllowed t st platform action true).1).1 = true) :
    executeWithRateLimit t st platform action (Except.ok a : Except ε α)
      = (.ok a, cfg.foldl (fun s pr => (incrementUsage t s platform action pr.1 1).2)
          (isActionAllowed t st platform action true).2) := by
  simp [executeWithRateLimit, htrue, hp]

theorem executeWithRateLimit_raise {ε α : Type} (t : Nat) (st : Store)
    (platform action : String) (e : ε)
    (htrue : ((isActionAllowed t st platform action true).1).1 = true) :
    executeWithRateLimit t st platform action (Except.error e : Except ε α)
      = (.opRaised e, (isActionAllowed t st platform action true).2) := by
  simp [executeWithRateLimit, htrue]

/-- Counts after the two increments performed for a two-period
configuration `[(HOURLY, _), (DAILY, _)]` (every platform dict in
`__init__` has exactly these periods): each period's own bucket reads one
higher. -/
theorem twoPeriodIncrements (t : Nat) (st₀ : Store) (platform action : String)
    (p : RateLimitPeriod) (hpmem : p = .hourly ∨ p = .daily) (c : Int)
    (hc : pyToInt (pyOrInt0
      (getLocal t (getTimeWindowKey t (pyLower platform) p action) st₀).1) = some c) :
    pyToInt (pyOrInt0 (getLocal t (getTimeWindowKey t (pyLower platform) p action)
      (incrementUsage t (incrementUsage t st₀ platform action .hourly 1).2
        platform action .daily 1).2).1) = some (c + 1) := by
  rcases hpmem with h | h <;> subst h
  · have hstep := incrementUsage_count_self t st₀ platform action .hourly c hc
    have hne : getTimeWindowKey t (pyLower platform) .daily action
        ≠ getTimeWindowKey t (pyLower platform) .hourly action :=
      getTimeWindowKey_period_ne t _ action (by intro h; cases h)
    have hpres := incrementUsage_lookup_other t
      (incrementUsage t st₀ platform action .hourly 1).2 platform action .daily
      (getTimeWindowKey t (pyLower platform) .hourly action) hne
    rw [getLocal_fst_of_lookup_eq t _ _ _ hpres]
    exact hstep
  · have hne : getTimeWindowKey t (pyLower platform) .hourly action
        ≠ getTimeWindowKey t (pyLower platform) .daily action :=
      getTimeWindowKey_period_ne t _ action (by intro h; cases h)
    have hpres := incrementUsage_lookup_other t st₀ platform action .hourly
      (getTimeWindowKey t (pyLower platform) .daily action) hne
    have hc₂ : pyToInt (pyOrInt0
        (getLocal t (getTimeWindowKey t (pyLower platform) .daily action)
          (incrementUsage t st₀ platform action .hourly 1).2).1) = some c := by
      rw [getLocal_fst_of_lookup_eq t _ _ _ hpres]
      exact hc
    exact incrementUsage_count_self t _ platform action .daily c hc₂

/--
**C3.** `execute_with_rate_limit` (for a configured platform): when
`is_action_allowed` denies the action it raises `RateLimitExceeded` whose
message names a blocking period — one whose `check_rate_limit` reports
`LIMIT_EXCEEDED`; when allowed and the wrapped operation succeeds it returns
the operation's result and the counter of **every** configured period reads
one higher than before; when allowed and the operation raises, the exception
propagates and no bucket count changes (no quota is consumed).
-/
theorem execute_with_rate_limit_spec {ε α : Type} (t : Nat) (st : Store)
    (platform action : String) (cfg : List (RateLimitPeriod × Nat)) (op : Except ε α)
    (hp : platformLimits? (pyLower platform) = some cfg) :
    (((isActionAllowed t st platform action true).1).1 = false →
      ∃ p : RateLimitPeriod,
        (executeWithRateLimit t st platform action op).1
          = .rateLimitExceeded ("Rate limit exceeded for " ++ platform ++ " " ++ action
              ++ " (" ++ p.value ++ ")")
        ∧ ((checkRateLimit t st platform action p).1).1 = .limitExceeded)
    ∧ (∀ a, op = .ok a → ((isActionAllowed t st platform action true).1).1 = true →
        (executeWithRateLimit t st platform action op).1 = .ok a
        ∧ ∀ p ∈ cfg.map Prod.fst, ∀ c : Int,
            pyToInt (pyOrInt0
              (getLocal t (getTimeWindowKey t (pyLower platform) p action) st).1) = some c →
            pyToInt (pyOrInt0
              (getLocal t (getTimeWindowKey t (pyLower platform) p action)
                (executeWithRateLimit t st platform action op).2).1) = some (c + 1))
    ∧ (∀ e, op = .error e → ((isActionAllowed t st platform action true).1).1 = true →
        (executeWithRateLimit t st platform action op).1 = .opRaised e
        ∧ ResEq t st (executeWithRateLimit t st platform action op).2) := by
  have haux := checkPeriodsAux_spec t platform action (cfg.map Prod.fst) true none st st
    (resEq_refl t st)
  have hparts := isActionAllowed_parts t st platform action cfg hp
  refine ⟨?_, ?_, ?_⟩
  · intro hfalse
    have hf : (checkPeriodsAux t platform action (cfg.map Prod.fst) (true, none, st)).1
        = false := by rw [← hparts.1]; exact hfalse
    obtain ⟨p, hbb, hexc⟩ := haux.2.2 (fun h => Bool.noConfusion h) hf
    refine ⟨p, ?_, hexc⟩
    rw [executeWithRateLimit_denied t st platform action op hfalse]
    have hbb₂ : ((isActionAllowed t st platform action true).1).2.blockedBy = some p := by
      rw [hparts.2.1]; exact hbb
    rw [hbb₂]
  · intro a hop htrue
    subst hop
    have hexec := executeWithRateLimit_ok (ε := ε) t st platform action a cfg hp htrue
    refine ⟨by rw [hexec], ?_⟩
    intro p hpmem c hc
    have hres : ResEq t st (isActionAllowed t st platform action true).2 := by
      rw [hparts.2.2]; exact haux.2.1
    have hc₁ : pyToInt (pyOrInt0 (getLocal t (getTimeWindowKey t (pyLower platform) p action)
        (isActionAllowed t st platform action true).2).1) = some c := by
      rw [hres _]; exact hc
    rw [hexec]
    unfold platformLimits? at hp
    by_cases h1 : pyLower platform = "twitter"
    · rw [if_pos h1] at hp
      injection hp with hp
      subst hp
      simp only [List.map, List.foldl]
      have hmem : p = RateLimitPeriod.hourly ∨ p = RateLimitPeriod.daily := by
        simpa using hpmem
      exact twoPeriodIncrements t _ platform action p hmem c hc₁
    · rw [if_neg h1] at hp
      by_cases h2 : pyLower platform = "mastodon"
      · rw [if_pos h2] at hp
        injection hp with hp
        subst hp
        simp only [List.map, List.foldl]
        have hmem : p = RateLimitPeriod.hourly ∨ p = RateLimitPeriod.daily := by
          simpa using hpmem
        exact twoPeriodIncrements t _ platform action p hmem c hc₁
      · rw [if_neg h2] at hp
        by_cases h3 : pyLower platform = "discord"
        · rw [if_pos h3] at hp
          injection hp with hp
          subst hp
          simp only [List.map, List.foldl]
          have hmem : p = RateLimitPeriod.hourly ∨ p = RateLimitPeriod.daily := by
            simpa using hpmem
          exact twoPeriodIncrements t _ platform action p hmem c hc₁
        · rw [if_neg h3] at hp
          exact Option.noConfusion hp
  · intro e hop htrue
    subst hop
    have hexec := executeWithRateLimit_raise (α := α) t st platform action e htrue
    refine ⟨by rw [hexec], ?_⟩
    rw [hexec]
    rw [hparts.2.2]
    exact haux.2.1

/-- **C3 witness.** Twitter with an empty store allows the action and a
successful operation returns its value. -/
theorem execute_with_rate_limit_spec_witness :
    (executeWithRateLimit 0 [] "twitter" "post" (Except.ok (7 : Nat) : Except Unit Nat)).1
      = ExecOutcome.ok 7 :=
  ((execute_with_rate_limit_spec 0 [] "twitter" "post"
      [(.hourly, 5), (.daily, 50)] (Except.ok 7) rfl).2.1 7 rfl (by decide)).1

/-! ### Lemmas about the sanitisation pipeline -/

theorem htmlEscapeChar_no_lt (c : Char) : '<' ∉ htmlEscapeChar c := by
  unfold htmlEscapeChar
  split_ifs with h₁ h₂ h₃ h₄ h₅ <;> intro hmem
  · revert hmem; decide
  · revert hmem; decide
  · revert hmem; decide
  · revert hmem; decide
  · revert hmem; decide
  · rcases List.mem_singleton.mp hmem with rfl
    exact h₂ rfl

theorem htmlEscape_no_lt (l : List Char) : '<' ∉ htmlEscape l := by
  induction l with
  | nil => simp [htmlEscape]
  | cons c cs ih =>
    simp only [htmlEscape, List.mem_append]
    rintro (h | h)
    · exact htmlEscapeChar_no_lt c h
    · exact ih h

theorem bleachCleanAux_id_of_no_lt (fuel : Nat) :
    ∀ l : List Char, l.length ≤ fuel → '<' ∉ l → bleachCleanAux fuel l = l := by
  induction fuel with
  | zero =>
    intro l hlen _
    rcases l with _ | ⟨c, cs⟩
    · rfl
    · simp at hlen
  | succ fuel ih =>
    intro l hlen hlt
    rcases l with _ | ⟨c, cs⟩
    · rfl
    · have hc : c ≠ '<' := fun h => hlt (h ▸ List.mem_cons_self c cs)
      simp only [bleachCleanAux, if_neg hc]
      rw [ih cs (by simpa using Nat.le_of_succ_le_succ hlen)
        (fun h => hlt (List.mem_cons_of_mem c h))]

theorem bleachClean_id_of_no_lt (l : List Char) (h : '<' ∉ l) : bleachClean l = l :=
  bleachCleanAux_id_of_no_lt l.length l le_rfl h

theorem subDeleteAux_subset (probe : List Char → Option Nat) (fuel : Nat) :
    ∀ (l : List Char) (c : Char), c ∈ subDeleteAux probe fuel l → c ∈ l := by
  induction fuel with
  | zero =>
    intro l c h
    rcases l with _ | ⟨a, as⟩ <;> simp [subDeleteAux] at h
  | succ fuel ih =>
    intro l c h
    rcases l with _ | ⟨a, as⟩
    · simp [subDeleteAux] at h
    · rcases hp : probe (a :: as) with _ | n
      · rw [subDeleteAux, hp] at h
        rcases List.mem_cons.mp h with rfl | h
        · exact List.mem_cons.mpr (Or.inl rfl)
        · exact List.mem_cons_of_mem a (ih as c h)
      · rcases n with _ | n
        · rw [subDeleteAux, hp] at h
          rcases List.mem_cons.mp h with rfl | h
          · exact List.mem_cons.mpr (Or.inl rfl)
          · exact List.mem_cons_of_mem a (ih as c h)
        · rw [subDeleteAux, hp] at h
          exact List.mem_cons_of_mem a (List.mem_of_mem_drop (ih _ c h))

theorem subDelete_subset (probe : List Char → Option Nat) (l : List Char) (c : Char)
    (h : c ∈ subDelete probe l) : c ∈ l :=
  subDeleteAux_subset probe l.length l c h

theorem dangerousSubs_subset (l : List Char) (c : Char) (h : c ∈ dangerousSubs l) : c ∈ l := by
  unfold dangerousSubs at h
  revert h
  generalize dangerousProbes = probes
  induction probes generalizing l with
  | nil => exact fun h => h
  | cons probe rest ih =>
    intro h
    exact subDelete_subset probe l c (ih (subDelete probe l) h)

theorem squeezeSpaces_subset (l : List Char) (c : Char) (h : c ∈ squeezeSpaces l) : c ∈ l := by
  induction l with
  | nil => simp [squeezeSpaces] at h
  | cons a as ih =>
    rcases as with _ | ⟨b, bs⟩
    · simpa [squeezeSpaces] using h
    · by_cases hsp : a = ' ' && b = ' '
      · rw [squeezeSpaces, if_pos hsp] at h
        exact List.mem_cons_of_mem a (ih h)
      · rw [squeezeSpaces, if_neg hsp] at h
        rcases List.mem_cons.mp h with rfl | h
        · exact List.mem_cons.mpr (Or.inl rfl)
        · exact List.mem_cons_of_mem a (ih h)

theorem pyStrip_subset (l : List Char) (c : Char) (h : c ∈ pyStrip l) : c ∈ l := by
  unfold pyStrip at h
  rw [List.mem_reverse] at h
  have h₁ := (List.dropWhile_sublist isPyWs (l := (l.dropWhile isPyWs).reverse)).mem h
  rw [List.mem_reverse] at h₁
  exact (List.dropWhile_sublist isPyWs (l := l)).mem h₁

theorem mapWs_no_lt (l : List Char) (h : '<' ∉ l) :
    '<' ∉ l.map (fun c => if isPyWs c then ' ' else c) := by
  intro hmem
  obtain ⟨a, ha, hae⟩ := List.mem_map.mp hmem
  by_cases hws : isPyWs a
  · rw [if_pos hws] at hae
    exact absurd hae (by decide)
  · rw [if_neg hws] at hae
    exact h (hae ▸ ha)

theorem truncateStep_no_lt (m? : Option Int) (l : List Char) (h : '<' ∉ l) :
    '<' ∉ truncateStep m? l := by
  rcases m? with _ | m
  · exact h
  simp only [truncateStep]
  by_cases hc : m ≠ 0 ∧ (l.length : Int) > m
  · rw [if_pos hc]
    intro hmem
    rcases List.mem_append.mp hmem with hm | hm
    · unfold pySliceTo at hm
      split_ifs at hm <;> exact h ((List.take_sublist _ _).mem hm)
    · exact absurd hm (by decide)
  · rw [if_neg hc]
    exact h

theorem truncateStep_length (L : Int) (h3 : 3 ≤ L) (l : List Char) :
    (truncateStep (some L) l).length ≤ L.toNat := by
  simp only [truncateStep]
  by_cases hc : L ≠ 0 ∧ (l.length : Int) > L
  · rw [if_pos hc]
    rw [List.length_append]
    unfold pySliceTo
    rw [if_pos (by omega : (0 : Int) ≤ L - 3)]
    rw [List.length_take]
    have hdots : "...".data.length = 3 := by decide
    rw [hdots]
    have hlen := hc.2
    omega
  · rw [if_neg hc]
    have hlen : (l.length : Int) ≤ L := by
      by_contra hgt
      exact hc ⟨by omega, by omega⟩
    omega

/--
**C10 (amended).** `sanitize_text` is total and its result contains no `<`
character at all — in particular no embedded `<script ...>...</script>` tag
survives (any markup is HTML-escaped, stripped or deleted).  When a
`max_length` of **at least 3** is given, the returned text never exceeds it.
(For `max_length` 1 or 2 the `text[:max_length-3] + "..."` truncation
overshoots, and `max_length = 0` is falsy and disables truncation — see the
counterexample.)
-/
theorem sanitize_text_safe (s : String) (m? : Option Int) :
    '<' ∉ (sanitizeText s m?).data
    ∧ ¬ List.IsInfix "<script".data (sanitizeText s m?).data
    ∧ ∀ L : Int, m? = some L → 3 ≤ L → (sanitizeText s m?).length ≤ L.toNat := by
  have h₀ : '<' ∉ htmlEscape (s.data.filter fun c => c ≠ Char.ofNat 0) :=
    htmlEscape_no_lt _
  have h₁ : '<' ∉ bleachClean (htmlEscape (s.data.filter fun c => c ≠ Char.ofNat 0)) := by
    rw [bleachClean_id_of_no_lt _ h₀]
    exact h₀
  have h₂ : '<' ∉ dangerousSubs (bleachClean (htmlEscape
      (s.data.filter fun c => c ≠ Char.ofNat 0))) :=
    fun hm => h₁ (dangerousSubs_subset _ _ hm)
  have h₃ := mapWs_no_lt _ h₂
  have h₄ : '<' ∉ squeezeSpaces ((dangerousSubs (bleachClean (htmlEscape
      (s.data.filter fun c => c ≠ Char.ofNat 0)))).map fun c => if isPyWs c then ' ' else c) :=
    fun hm => h₃ (squeezeSpaces_subset _ _ hm)
  have h₅ : '<' ∉ pyStrip (squeezeSpaces ((dangerousSubs (bleachClean (htmlEscape
      (s.data.filter fun c => c ≠ Char.ofNat 0)))).map fun c => if isPyWs c then ' ' else c)) :=
    fun hm => h₄ (pyStrip_subset _ _ hm)
  have hnl : '<' ∉ (sanitizeText s m?).data := truncateStep_no_lt m? _ h₅
  refine ⟨hnl, ?_, ?_⟩
  · intro hinf
    exact hnl (hinf.subset (by decide : '<' ∈ "<script".data))
  · intro L hL h3
    subst hL
    exact truncateStep_length L h3 _

/-- **C10 witness.** A text with an embedded script tag against the twitter
character limit. -/
theorem sanitize_text_safe_witness :
    '<' ∉ (sanitizeText "<script>alert(1)</script> hi" (some 20)).data
    ∧ (sanitizeText "<script>alert(1)</script> hi" (some 20)).length ≤ (20 : Int).toNat :=
  ⟨(sanitize_text_safe "<script>alert(1)</script> hi" (some 20)).1,
   (sanitize_text_safe "<script>alert(1)</script> hi" (some 20)).2.2 20 rfl (by decide)⟩

/--
**C10, counterexample to the claim as stated.** With `max_length = 1` the
truncation `text[:1-3] + "..."` of `"aaaa"` yields `"aa..."`, of length 5 —
the returned text exceeds the given `max_length`.
-/
theorem sanitize_text_small_max_length_counterexample :
    sanitizeText "aaaa" (some 1) = "aa..."
    ∧ ¬ ((sanitizeText "aaaa" (some 1)).length ≤ 1) :=
  ⟨by decide, by decide⟩
